import Mathlib

/-!
Verification of the APNIC delegated-data parser and CIDR-list generator
(`scripts/parse_apnic_data.py`, `scripts/generate_cidr_lists.py`).

The Python code is shallowly embedded: Python `str` is `List Char`
(ASCII is assumed throughout, matching the well-known pipe-delimited
registry-statistics format the scripts consume; Unicode-only digit
classes and IPv6 zone identifiers beyond the `%scope` syntax check are
outside the model), Python `int` is `Int`/`Nat`, exceptions are
`Except PyExc`, and dictionaries with fixed key sets are structures.
The behaviour of the CPython `ipaddress` standard-library functions the
scripts call (`IPv4Address`, `IPv6Address`, `ip_address`, `ip_network`,
`summarize_address_range`) is embedded from the CPython implementation,
including the canonical-form validation rules, the `strict=False`
host-bit masking, and the greedy range-to-prefix decomposition loop.
String rendering of addresses (`str(...)`) follows CPython as well,
including RFC 5952 zero-run compression for IPv6.
-/

/-- Exception classes that can escape the embedded library calls. -/
inductive PyExc
  | valueError
  | addressValueError
  | netmaskValueError
deriving DecidableEq, Repr

/-- ASCII whitespace recognised by Python `str.strip()`. -/
def isPySpace (c : Char) : Bool :=
  c = ' ' || c = '\t' || c = '\n' || c = '\x0d' || c = '\x0b' || c = '\x0c'

/-- ASCII decimal digit (Python `str.isdigit` restricted to ASCII input). -/
def isAsciiDigit (c : Char) : Bool :=
  '0' ≤ c && c ≤ '9'

/-- Lowercase/uppercase hex digit, as accepted by CPython `_parse_hextet`. -/
def isHexChar (c : Char) : Bool :=
  isAsciiDigit c || ('a' ≤ c && c ≤ 'f') || ('A' ≤ c && c ≤ 'F')

/-- Numeric value of one hex digit. -/
def hexVal (c : Char) : Nat :=
  if isAsciiDigit c then c.toNat - '0'.toNat
  else if 'a' ≤ c && c ≤ 'f' then c.toNat - 'a'.toNat + 10
  else c.toNat - 'A'.toNat + 10

/-- Value of an all-digit string, base 10 (`int(s)` on a digit string). -/
def digitsToNat (s : List Char) : Nat :=
  s.foldl (fun acc c => acc * 10 + (c.toNat - '0'.toNat)) 0

/-- Value of a hex-digit string, base 16 (`int(s, 16)`). -/
def hexToNat (s : List Char) : Nat :=
  s.foldl (fun acc c => acc * 16 + hexVal c) 0

/-- Python `str.split(sep)` for a one-character separator: always returns at
least one (possibly empty) field. -/
def pySplit (sep : Char) : List Char → List (List Char)
  | [] => [[]]
  | c :: rest =>
    match pySplit sep rest with
    | [] => [[]]
    | h :: t => if c = sep then [] :: h :: t else (c :: h) :: t

/-- Python `str.partition(sep)` for a one-character separator: splits at the
first occurrence; the `Bool` records whether the separator was found. -/
def pyPartition (sep : Char) : List Char → List Char × Bool × List Char
  | [] => ([], false, [])
  | c :: rest =>
    if c = sep then ([], true, rest)
    else
      match pyPartition sep rest with
      | (before, found, after) => (c :: before, found, after)

/-- Python `sep.join(parts)` for a one-character separator. -/
def pyJoin (sep : Char) : List (List Char) → List Char
  | [] => []
  | [p] => p
  | p :: rest => p ++ sep :: pyJoin sep rest

/-- Conversion from Lean string literals to the embedded Python strings. -/
def pystr (s : String) : List Char :=
  s.data

/-- Decimal rendering of a natural number (`str(n)` for `n : int`, `n ≥ 0`). -/
def natToDec (n : Nat) : List Char :=
  Nat.toDigits 10 n

/-- Lowercase hex rendering of a natural number (`'%x' % n`). -/
def natToHex (n : Nat) : List Char :=
  Nat.toDigits 16 n

/-! ### CPython `ipaddress`: IPv4 parsing and rendering -/

/-- CPython `IPv4Address._parse_octet`: ASCII digits only, at most three
characters, value at most 255, and no leading zeros. -/
def parse_octet (s : List Char) : Except PyExc Nat :=
  if s.isEmpty then .error .addressValueError
  else if ¬ s.all isAsciiDigit then .error .addressValueError
  else if s.length > 3 then .error .addressValueError
  else if digitsToNat s > 255 then .error .addressValueError
  else if s.length > 1 ∧ s.headD ' ' = '0' then .error .addressValueError
  else .ok (digitsToNat s)

/-- CPython `IPv4Address._ip_int_from_string`: split on dots into exactly four
octets and combine big-endian. -/
def IPv4_int_from_string (s : List Char) : Except PyExc Nat :=
  match pySplit '.' s with
  | [o1, o2, o3, o4] => do
    let a ← parse_octet o1
    let b ← parse_octet o2
    let c ← parse_octet o3
    let d ← parse_octet o4
    pure (((a * 256 + b) * 256 + c) * 256 + d)
  | _ => .error .addressValueError

/-- CPython `IPv4Address(str)`: rejects any `/`, then parses dotted-quad. -/
def IPv4Address_ofPyStr (s : List Char) : Except PyExc Nat :=
  if '/' ∈ s then .error .addressValueError
  else IPv4_int_from_string s

/-- CPython `IPv4Address(int)`: the integer must lie in `[0, 2^32 - 1]`. -/
def IPv4Address_ofInt (n : Int) : Except PyExc Nat :=
  if n < 0 then .error .addressValueError
  else if n > 2 ^ 32 - 1 then .error .addressValueError
  else .ok n.toNat

/-- CPython `str(IPv4Address)`: dotted decimal quad. -/
def renderAddr4 (n : Nat) : List Char :=
  natToDec (n / 2 ^ 24 % 256) ++ '.' ::
    (natToDec (n / 2 ^ 16 % 256) ++ '.' ::
      (natToDec (n / 2 ^ 8 % 256) ++ '.' :: natToDec (n % 256)))

/-- CPython `str(IPv4Network)`: address, slash, decimal prefix length. -/
def renderNet4 (net plen : Nat) : List Char :=
  renderAddr4 net ++ '/' :: natToDec plen

/-! ### CPython `ipaddress`: IPv6 parsing and rendering -/

/-- CPython `IPv6Address._parse_hextet`: hex digits only, at most four of
them, at least one (`int('', 16)` raises). -/
def parse_hextet (s : List Char) : Except PyExc Nat :=
  if ¬ s.all isHexChar then .error .addressValueError
  else if s.length > 4 then .error .addressValueError
  else if s.isEmpty then .error .addressValueError
  else .ok (hexToNat s)

/-- Fold a block of hextet fields into an accumulated value, shifting by 16
bits per field (the `ip_int <<= 16; ip_int |= ...` loops). -/
def foldHextets (acc : Nat) : List (List Char) → Except PyExc Nat
  | [] => .ok acc
  | h :: t => do
    let v ← parse_hextet h
    foldHextets (acc * 2 ^ 16 + v) t

/-- CPython `IPv6Address._ip_int_from_string`: colon-separated hextets with at
most one `::` run, optional trailing embedded IPv4. -/
def IPv6_int_from_string (s : List Char) : Except PyExc Nat :=
  if s.isEmpty then .error .addressValueError
  else
    let parts := pySplit ':' s
    if parts.length < 3 then .error .addressValueError
    else do
      -- If the last part is in dotted-quad form, expand it into two hextets.
      let parts ←
        match parts.getLast? with
        | some last =>
          if '.' ∈ last then do
            let v4 ← IPv4_int_from_string last
            pure (parts.dropLast ++ [natToHex (v4 / 2 ^ 16 % 2 ^ 16), natToHex (v4 % 2 ^ 16)])
          else pure parts
        | none => pure parts
      if parts.length > 9 then .error .addressValueError
      else
        -- Index of the lone empty part strictly inside the list, if any (`::`).
        match ((List.range parts.length).filter fun i =>
            1 ≤ i ∧ i + 1 < parts.length ∧ (parts.getD i [' ']).isEmpty) with
        | [] =>
          if parts.length ≠ 8 then .error .addressValueError
          else if (parts.getD 0 [' ']).isEmpty then .error .addressValueError
          else if (parts.getLastD [' ']).isEmpty then .error .addressValueError
          else foldHextets 0 parts
        | [skipIndex] => do
          let partsHi :=
            if (parts.getD 0 [' ']).isEmpty then skipIndex - 1 else skipIndex
          if (parts.getD 0 [' ']).isEmpty ∧ partsHi ≠ 0 then .error .addressValueError
          else
            let partsLo0 := parts.length - skipIndex - 1
            let partsLo :=
              if (parts.getLastD [' ']).isEmpty then partsLo0 - 1 else partsLo0
            if (parts.getLastD [' ']).isEmpty ∧ partsLo ≠ 0 then .error .addressValueError
            else if 8 - (partsHi + partsLo) < 1 ∨ partsHi + partsLo > 8 then
              .error .addressValueError
            else do
              let hi ← foldHextets 0 (parts.take partsHi)
              foldHextets (hi * 2 ^ (16 * (8 - (partsHi + partsLo)))) (parts.drop (parts.length - partsLo))
        | _ => .error .addressValueError

/-- CPython `IPv6Address(str)`: rejects `/`, splits off a `%scope` suffix
(which must be non-empty and contain no further `%`), parses the rest. -/
def IPv6Address_ofPyStr (s : List Char) : Except PyExc Nat :=
  if '/' ∈ s then .error .addressValueError
  else
    match pyPartition '%' s with
    | (addr, found, scope) =>
      if found ∧ (scope.isEmpty ∨ '%' ∈ scope) then .error .addressValueError
      else IPv6_int_from_string addr

/-- CPython `IPv6Address(int)`: the integer must lie in `[0, 2^128 - 1]`. -/
def IPv6Address_ofInt (n : Int) : Except PyExc Nat :=
  if n < 0 then .error .addressValueError
  else if n > 2 ^ 128 - 1 then .error .addressValueError
  else .ok n.toNat

/-- The eight 16-bit hextet values of an IPv6 address, most significant
first. -/
def hextetsOf (n : Nat) : List Nat :=
  (List.range 8).map fun i => n / 2 ^ (16 * (7 - i)) % 2 ^ 16

/-- Scan state for CPython's best-zero-run search in
`_string_from_ip_int`: (current run start, current run length,
best run start, best run length). A strictly longer run is required to
displace the incumbent, so the earliest longest run wins. -/
def bestRunStep (st : Option Nat × Nat × Nat × Nat) (iv : Nat × Nat) :
    Option Nat × Nat × Nat × Nat :=
  match st, iv with
  | (curStart, curLen, bestStart, bestLen), (i, v) =>
    if v = 0 then
      let newStart := match curStart with | none => i | some j => j
      let newLen := curLen + 1
      if newLen > bestLen then (some newStart, newLen, newStart, newLen)
      else (some newStart, newLen, bestStart, bestLen)
    else (none, 0, bestStart, bestLen)

/-- Best (earliest longest) run of zero hextets: (start, length). -/
def bestZeroRun (hs : List Nat) : Nat × Nat :=
  match hs.enum.foldl bestRunStep (none, 0, 0, 0) with
  | (_, _, bestStart, bestLen) => (bestStart, bestLen)

/-- CPython `str(IPv6Address)` (`_string_from_ip_int`): hextets in lowercase
hex with the earliest longest run of two or more zero hextets compressed
to `::`. -/
def renderAddr6 (n : Nat) : List Char :=
  let hextets := (hextetsOf n).map natToHex
  match bestZeroRun (hextetsOf n) with
  | (bestStart, bestLen) =>
    if bestLen > 1 then
      let hx := if bestStart + bestLen = 8 then hextets ++ [[]] else hextets
      let hx := hx.take bestStart ++ [] :: hx.drop (bestStart + bestLen)
      let hx := if bestStart = 0 then [] :: hx else hx
      pyJoin ':' hx
    else pyJoin ':' hextets

/-- CPython `str(IPv6Network)`: compressed address, slash, prefix length. -/
def renderNet6 (net plen : Nat) : List Char :=
  renderAddr6 net ++ '/' :: natToDec plen

/-- CPython `ip_address(str)`: try IPv4, then IPv6, else `ValueError`. -/
inductive IPAddr
  | v4 (n : Nat)
  | v6 (n : Nat)
deriving DecidableEq, Repr

/-- CPython `ipaddress.ip_address(str)`. -/
def ip_address (s : List Char) : Except PyExc IPAddr :=
  match IPv4Address_ofPyStr s with
  | .ok n => .ok (.v4 n)
  | .error _ =>
    match IPv6Address_ofPyStr s with
    | .ok n => .ok (.v6 n)
    | .error _ => .error .valueError

/-! ### CPython `ipaddress`: bit utilities and `summarize_address_range` -/

/-- Fuel-driven loop counting trailing zero bits; `n` itself always
suffices as fuel, keeping the definition structurally recursive (hence
evaluable inside the kernel). -/
def tzLoop : Nat → Nat → Nat
  | 0, _ => 0
  | fuel + 1, n => if n = 0 ∨ n % 2 = 1 then 0 else tzLoop fuel (n / 2) + 1

/-- Number of trailing zero bits of a positive number (`(~n & (n-1)).bit_length()`). -/
def trailingZeroBits (n : Nat) : Nat :=
  tzLoop n n

/-- CPython `_count_righthand_zero_bits(number, bits)`. -/
def countRighthandZeroBits (number bits : Nat) : Nat :=
  if number = 0 then bits
  else min bits (trailingZeroBits number)

/-- Fuel-driven loop counting binary digits; `n` itself always suffices as
fuel. -/
def bitLenLoop : Nat → Nat → Nat
  | 0, _ => 0
  | fuel + 1, n => if n = 0 then 0 else bitLenLoop fuel (n / 2) + 1

/-- Python `int.bit_length` on a natural number. -/
def pyBitLength (n : Nat) : Nat :=
  bitLenLoop n n

/-- The fuel-driven bit-length loop is independent of the fuel once the fuel
dominates the argument, and agrees with `Nat.log2`. -/
theorem bitLenLoop_eq : ∀ fuel n, n ≤ fuel →
    bitLenLoop fuel n = if n = 0 then 0 else Nat.log2 n + 1
  | 0, 0, _ => rfl
  | 0, _ + 1, h => by omega
  | fuel + 1, n, h => by
    by_cases hn : n = 0
    · simp [bitLenLoop, hn]
    · rw [bitLenLoop, if_neg hn, if_neg hn]
      have hfuel : n / 2 ≤ fuel := by omega
      rw [bitLenLoop_eq fuel (n / 2) hfuel]
      by_cases h2 : n / 2 = 0
      · rw [if_pos h2]
        conv_rhs => rw [Nat.log2]
        rw [if_neg (by omega)]
      · rw [if_neg h2]
        conv_rhs => rw [Nat.log2]
        rw [if_pos (by omega)]

/-- `pyBitLength` agrees with `Nat.log2` on positive numbers. -/
theorem pyBitLength_eq (n : Nat) : pyBitLength n = if n = 0 then 0 else Nat.log2 n + 1 :=
  bitLenLoop_eq n n (Nat.le_refl n)

/-- The `nbits` computed by each iteration of `summarize_address_range`:
the largest aligned block size at `first` capped by the remaining range
size (`min(_count_righthand_zero_bits(first, ip_bits), (last - first + 1).bit_length() - 1)`). -/
def summarizeNbits (first last W : Nat) : Nat :=
  min (countRighthandZeroBits first W) (pyBitLength (last - first + 1) - 1)

/-- Fuel-driven version of the CPython `_summarize_address_range` loop;
`last + 1 - first` always suffices as fuel because the cursor advances
by at least one address per iteration. -/
def summarizeLoop : Nat → Nat → Nat → Nat → List (Nat × Nat)
  | 0, _, _, _ => []
  | fuel + 1, first, last, W =>
    if first ≤ last then
      (first, W - summarizeNbits first last W) ::
        (if first + 2 ^ summarizeNbits first last W - 1 = 2 ^ W - 1 then []
         else summarizeLoop fuel (first + 2 ^ summarizeNbits first last W) last W)
    else []

/-- CPython `_summarize_address_range` loop: greedy range-to-prefix
decomposition over `W`-bit addresses; each emitted pair is
(network address, prefix length).  The loop breaks after a block that
reaches the top address `2^W - 1`. -/
def summarize_address_range (first last W : Nat) : List (Nat × Nat) :=
  summarizeLoop (last + 1 - first) first last W

/-- The loop result is independent of the fuel, once the fuel dominates the
number of remaining addresses. -/
theorem summarizeLoop_congr {last W : Nat} : ∀ f1 f2 first,
    last + 1 - first ≤ f1 → last + 1 - first ≤ f2 →
    summarizeLoop f1 first last W = summarizeLoop f2 first last W
  | 0, 0, _, _, _ => rfl
  | 0, g + 1, first, h1, _ => by
    rw [summarizeLoop, summarizeLoop, if_neg (by omega)]
  | f + 1, 0, first, _, h2 => by
    rw [summarizeLoop, summarizeLoop, if_neg (by omega)]
  | f + 1, g + 1, first, h1, h2 => by
    rw [summarizeLoop, summarizeLoop]
    by_cases hle : first ≤ last
    · rw [if_pos hle, if_pos hle]
      by_cases hbrk : first + 2 ^ summarizeNbits first last W - 1 = 2 ^ W - 1
      · rw [if_pos hbrk, if_pos hbrk]
      · rw [if_neg hbrk, if_neg hbrk]
        have hpos : 0 < 2 ^ summarizeNbits first last W :=
          Nat.pos_pow_of_pos _ (by decide)
        have := @summarizeLoop_congr last W f g
          (first + 2 ^ summarizeNbits first last W) (by omega) (by omega)
        rw [this]
    · rw [if_neg hle, if_neg hle]

/-- The one-step unfolding equation of `summarize_address_range`, matching
the shape of the CPython `while` loop. -/
theorem summarize_address_range_eq (first last W : Nat) :
    summarize_address_range first last W =
      if first ≤ last then
        (first, W - summarizeNbits first last W) ::
          (if first + 2 ^ summarizeNbits first last W - 1 = 2 ^ W - 1 then []
           else summarize_address_range (first + 2 ^ summarizeNbits first last W) last W)
      else [] := by
  unfold summarize_address_range
  by_cases hle : first ≤ last
  · rw [if_pos hle]
    have hk : last + 1 - first = (last - first) + 1 := by omega
    rw [hk, summarizeLoop, if_pos hle]
    by_cases hbrk : first + 2 ^ summarizeNbits first last W - 1 = 2 ^ W - 1
    · rw [if_pos hbrk, if_pos hbrk]
    · rw [if_neg hbrk, if_neg hbrk]
      have hpos : 0 < 2 ^ summarizeNbits first last W :=
        Nat.pos_pow_of_pos _ (by decide)
      rw [summarizeLoop_congr (last - first)
        (last + 1 - (first + 2 ^ summarizeNbits first last W))
        (first + 2 ^ summarizeNbits first last W) (by omega) (by omega)]
  · rw [if_neg hle]
    have hk : last + 1 - first = 0 := by omega
    rw [hk, summarizeLoop]

/-- CPython `summarize_address_range(first, last)` argument check: raises
`ValueError` when `last < first` (surfacing when the generator is forced
by `list(...)`). -/
def summarize_checked (first last W : Nat) : Except PyExc (List (Nat × Nat)) :=
  if last < first then .error .valueError
  else .ok (summarize_address_range first last W)

/-! ### CPython `ipaddress`: network parsing (`ip_network`) -/

/-- CPython `_prefix_from_prefix_string`: ASCII digits only, value within
`[0, maxPlen]`. -/
def plenFromDigits (s : List Char) (maxPlen : Nat) : Except PyExc Nat :=
  if s.isEmpty ∨ ¬ s.all isAsciiDigit then .error .netmaskValueError
  else if digitsToNat s > maxPlen then .error .netmaskValueError
  else .ok (digitsToNat s)

/-- CPython `_prefix_from_ip_int`: an address value is a valid netmask when
it consists of ones followed by zeros. -/
def plenFromIpInt (n W : Nat) : Except PyExc Nat :=
  let tz := countRighthandZeroBits n W
  let plen := W - tz
  if n / 2 ^ tz ≠ 2 ^ plen - 1 then .error .valueError
  else .ok plen

/-- CPython `_make_netmask` for string arguments: try a decimal prefix
length first, then a netmask or hostmask in address form. -/
def makeNetmask (s : List Char) (W : Nat)
    (parseAddr : List Char → Except PyExc Nat) : Except PyExc Nat :=
  match plenFromDigits s W with
  | .ok p => .ok p
  | .error _ =>
    match parseAddr s with
    | .error _ => .error .netmaskValueError
    | .ok n =>
      match plenFromIpInt n W with
      | .ok p => .ok p
      | .error _ =>
        match plenFromIpInt (2 ^ W - 1 - n) W with
        | .ok p => .ok p
        | .error _ => .error .netmaskValueError

/-- A parsed IP network: family flag, address as written, prefix length,
and the network address (host bits cleared). -/
structure IPNet where
  isV4 : Bool
  addrInt : Nat
  plen : Nat
  network : Nat
deriving DecidableEq, Repr

/-- CPython `IPv4Network(str, strict)` / `IPv6Network(str, strict)` common
shape: split on `/` (at most one allowed), parse the address part, parse
the optional prefix, then mask (or reject host bits when strict). -/
def parseNetwork (s : List Char) (strict : Bool) (W : Nat) (isV4 : Bool)
    (parseAddr : List Char → Except PyExc Nat) : Except PyExc IPNet := do
  let parts := pySplit '/' s
  if parts.length > 2 then .error .addressValueError
  else do
    let addr ← parseAddr (parts.getD 0 [])
    let plen ←
      if parts.length = 2 then makeNetmask (parts.getD 1 []) W parseAddr
      else .ok W
    let net := addr / 2 ^ (W - plen) * 2 ^ (W - plen)
    if strict ∧ net ≠ addr then .error .valueError
    else .ok ⟨isV4, addr, plen, net⟩

/-- CPython `ipaddress.ip_network(str, strict)`: try IPv4, then IPv6. -/
def ip_network (s : List Char) (strict : Bool) : Except PyExc IPNet :=
  match parseNetwork s strict 32 true IPv4_int_from_string with
  | .ok net => .ok net
  | .error _ =>
    match parseNetwork s strict 128 false IPv6_int_from_string with
    | .ok net => .ok net
    | .error _ => .error .valueError

/-! ### `scripts/parse_apnic_data.py` -/

/-- One accepted ledger line, as returned by `APNICParser.parse_line`
(the Python dict with keys registry/country/type/start/count/date/status). -/
structure PyRecord where
  registry : List Char
  country : List Char
  type_ : List Char
  start : List Char
  count : Int
  date : List Char
  status : List Char
deriving DecidableEq, Repr

/-- Python `int(s)` as used under the `s.isdigit()` guard in `parse_line`:
an all-digit ASCII string always converts; anything else raises
`ValueError`.  (The full `int` literal grammar is unreachable there
because the call site is guarded by `isdigit`.) -/
def pyInt (s : List Char) : Except PyExc Int :=
  if ¬ s.isEmpty ∧ s.all isAsciiDigit then .ok (digitsToNat s)
  else .error .valueError

/-- Python `s.isdigit()` on ASCII input. -/
def pyIsDigit (s : List Char) : Bool :=
  ¬ s.isEmpty ∧ s.all isAsciiDigit

/-- Tail of `APNICParser.parse_line` after the count conversion: the
`except ValueError: return None` handler, the `count_int <= 0`
rejection, and the final dict construction from the first seven
fields. -/
def parse_line_tail (line : List Char) (r : Except PyExc Int) :
    Except PyExc (Option PyRecord) :=
  match r with
  | .error e => if e = .valueError then .ok none else .error e
  | .ok count_int =>
    if count_int ≤ 0 then .ok none
    else .ok (some ⟨(pySplit '|' line).getD 0 [], (pySplit '|' line).getD 1 [],
      (pySplit '|' line).getD 2 [], (pySplit '|' line).getD 3 [], count_int,
      (pySplit '|' line).getD 5 [], (pySplit '|' line).getD 6 []⟩)

/-- `APNICParser.parse_line`: comment/blank rejection, pipe split, field
count check, type whitelist, and count validation with the
`try/except ValueError` wrapper.  The `parts[:7]` tuple unpacking is
modelled by the length test plus positional access into the split. -/
def parse_line (line : List Char) : Except PyExc (Option PyRecord) :=
  if (line.headD ' ' = '#') ∨ line.all isPySpace then .ok none
  else if (pySplit '|' line).length < 7 then .ok none
  else if ¬ ((pySplit '|' line).getD 2 [] = pystr "ipv4" ∨
      (pySplit '|' line).getD 2 [] = pystr "ipv6" ∨
      (pySplit '|' line).getD 2 [] = pystr "asn") then .ok none
  else
    parse_line_tail line
      (if pyIsDigit ((pySplit '|' line).getD 4 []) then
        pyInt ((pySplit '|' line).getD 4 []) else .ok 0)

/-- The tail of `parse_line` on a successfully converted count. -/
theorem parse_line_tail_ok (line : List Char) (X : Int) :
    parse_line_tail line (.ok X) =
      if X ≤ 0 then .ok none
      else .ok (some ⟨(pySplit '|' line).getD 0 [], (pySplit '|' line).getD 1 [],
        (pySplit '|' line).getD 2 [], (pySplit '|' line).getD 3 [], X,
        (pySplit '|' line).getD 5 [], (pySplit '|' line).getD 6 []⟩) := rfl

/-- The dict returned by `APNICParser.calculate_ip_range`
(keys start/end/cidr; `stop` models the `end` key). -/
structure RangeDict where
  start : List Char
  stop : List Char
  cidr : List Char
deriving DecidableEq, Repr

/-- Body of the `try` block of `APNICParser.calculate_ip_range`. -/
def calc_try (start_ip : List Char) (count : Int) (ip_type : List Char) :
    Except PyExc RangeDict :=
  if ip_type = pystr "ipv4" then do
    let start ← IPv4Address_ofPyStr start_ip
    let stop ← IPv4Address_ofInt ((start : Int) + count - 1)
    let cidr_list ← summarize_checked start stop 32
    let cidr :=
      match cidr_list with
      | c :: _ => renderNet4 c.1 c.2
      | [] => start_ip ++ pystr "/32"
    pure ⟨renderAddr4 start, renderAddr4 stop, cidr⟩
  else if ip_type = pystr "ipv6" then do
    let start ← IPv6Address_ofPyStr start_ip
    let stop ← IPv6Address_ofInt ((start : Int) + count - 1)
    let cidr_list ← summarize_checked start stop 128
    let cidr :=
      match cidr_list with
      | c :: _ => renderNet6 c.1 c.2
      | [] => start_ip ++ pystr "/128"
    pure ⟨renderAddr6 start, renderAddr6 stop, cidr⟩
  else pure ⟨start_ip, start_ip, start_ip⟩

/-- `APNICParser.calculate_ip_range`: the `try` body with the
`except Exception` handler returning the fallback dict. -/
def calculate_ip_range (start_ip : List Char) (count : Int) (ip_type : List Char) :
    RangeDict :=
  match calc_try start_ip count ip_type with
  | .ok d => d
  | .error _ => ⟨start_ip, start_ip, start_ip⟩

/-- An entry dict flowing through `parse_data`, `validate_ip_data`,
`save_data` and `generate_cidr_lists.py` (JSON object).  `stop` models
the `end` key; `stop`/`cidr` are absent (`none`) for `asn` entries. -/
structure IpEntry where
  registry : List Char := []
  country : List Char := []
  type_ : List Char := []
  start : List Char := []
  count : Int := 0
  date : List Char := []
  status : List Char := []
  stop : Option (List Char) := none
  cidr : Option (List Char) := none
deriving DecidableEq, Repr

/-- `APNICParser.validate_ip_data`: inside `try/except`, for ip families,
parse the (possibly updated) start string, require a positive count, and
require any present cidr string to parse via `ip_network(..., strict=False)`. -/
def validate_ip_data (e : IpEntry) : Bool :=
  if e.type_ = pystr "ipv4" ∨ e.type_ = pystr "ipv6" then
    match (if e.type_ = pystr "ipv4" then IPv4Address_ofPyStr e.start
           else IPv6Address_ofPyStr e.start) with
    | .error _ => false
    | .ok _ =>
      if e.count ≤ 0 then false
      else
        match e.cidr with
        | some c => (ip_network c false).isOk
        | none => true
  else true

/-- `parsed.update(ip_range)` applied to a parsed record: the `start` key is
overwritten with the rendered start and `end`/`cidr` are added. -/
def updateRecord (r : PyRecord) (d : RangeDict) : IpEntry :=
  ⟨r.registry, r.country, r.type_, d.start, r.count, r.date, r.status,
    some d.stop, some d.cidr⟩

/-- An `asn` record placed into the results without range computation. -/
def plainEntry (r : PyRecord) : IpEntry :=
  ⟨r.registry, r.country, r.type_, r.start, r.count, r.date, r.status, none, none⟩

/-- Accumulated `results` of `APNICParser.parse_data` (metadata aside),
with the processed and skipped line counters. -/
structure ParseResults where
  ipv4 : List IpEntry
  ipv6 : List IpEntry
  asn : List IpEntry
  processed : Nat
  skipped : Nat
deriving DecidableEq, Repr

/-- One iteration of the `parse_data` loop. -/
def parse_data_step (r : ParseResults) (line : List Char) :
    Except PyExc ParseResults := do
  let r := { r with processed := r.processed + 1 }
  match ← parse_line line with
  | none => pure { r with skipped := r.skipped + 1 }
  | some rec =>
    if rec.type_ = pystr "ipv4" ∨ rec.type_ = pystr "ipv6" then
      let ip_range := calculate_ip_range rec.start rec.count rec.type_
      let entry := updateRecord rec ip_range
      if ¬ validate_ip_data entry then pure { r with skipped := r.skipped + 1 }
      else if rec.type_ = pystr "ipv4" then pure { r with ipv4 := r.ipv4 ++ [entry] }
      else pure { r with ipv6 := r.ipv6 ++ [entry] }
    else pure { r with asn := r.asn ++ [plainEntry rec] }

/-- `APNICParser.parse_data`: split the input on newlines and fold the
per-line step over the collected results. -/
def parse_data (data : List Char) : Except PyExc ParseResults :=
  (pySplit '\n' data).foldlM parse_data_step ⟨[], [], [], 0, 0⟩

/-! ### `scripts/generate_cidr_lists.py` -/

/-- Sort key produced by `ip_to_sort_key`: Python tuples `(0, int)` for
IPv4, `(1, int)` for IPv6, `(2, str)` for unparsable input. -/
inductive SortKey
  | v4 (n : Nat)
  | v6 (n : Nat)
  | bad (s : List Char)
deriving DecidableEq, Repr

/-- `ip_to_sort_key`: strip any `/suffix`, parse with `ip_address`, tag by
family; fall back to the raw string on failure. -/
def ip_to_sort_key (ip_str : List Char) : SortKey :=
  match ip_address ((pySplit '/' ip_str).getD 0 []) with
  | .ok (.v4 n) => .v4 n
  | .ok (.v6 n) => .v6 n
  | .error _ => .bad ip_str

/-- Python `<=` on code points, extended lexicographically to strings. -/
def lexLe : List Char → List Char → Bool
  | [], _ => true
  | _ :: _, [] => false
  | a :: s, b :: t =>
    if a.toNat < b.toNat then true
    else if b.toNat < a.toNat then false
    else lexLe s t

/-- Python tuple `<=` on the sort keys (the family tag is compared first,
so payloads of distinct types are never compared). -/
def keyLe : SortKey → SortKey → Bool
  | .v4 m, .v4 n => m ≤ n
  | .v4 _, .v6 _ => true
  | .v4 _, .bad _ => true
  | .v6 _, .v4 _ => false
  | .v6 m, .v6 n => m ≤ n
  | .v6 _, .bad _ => true
  | .bad _, .v4 _ => false
  | .bad _, .v6 _ => false
  | .bad s, .bad t => lexLe s t

/-- The comparison `sorted(..., key=ip_to_sort_key)` sorts by. -/
def cidrLe (a b : List Char) : Prop :=
  keyLe (ip_to_sort_key a) (ip_to_sort_key b) = true

instance : DecidableRel cidrLe := fun a b => by
  unfold cidrLe; infer_instance

/-- Python `sorted(l, key=ip_to_sort_key)`: the unique stable sort by the
key order.  (`List.insertionSort` with a total transitive relation is
stable and sorted, which characterises `sorted`.) -/
def pySorted (l : List (List Char)) : List (List Char) :=
  List.insertionSort cidrLe l

/-- The filtering loop of `generate_cidr_list`: skip an entry when the
country filter is truthy (not `None` and non-empty) and differs from the
entry's country; collect present `cidr` values. -/
def collectCidrs : List IpEntry → Option (List Char) → List (List Char)
  | [], _ => []
  | e :: rest, country =>
    if (match country with
        | some s => !s.isEmpty && decide (e.country ≠ s)
        | none => false) then collectCidrs rest country
    else
      match e.cidr with
      | some c => c :: collectCidrs rest country
      | none => collectCidrs rest country

/-- `generate_cidr_list(data, ip_type, country)`: `data` is the loaded JSON
object viewed as a map from family key to entry list. -/
def generate_cidr_list (data : List Char → List IpEntry) (ip_type : List Char)
    (country : Option (List Char)) : List (List Char) :=
  pySorted (collectCidrs (data ip_type) country)

/-- `validate_cidr` from `generate_cidr_lists.py`. -/
def validate_cidr (cidr : List Char) : Bool :=
  (ip_network cidr false).isOk

/-! ### Coverage of CIDR blocks, for the summarizer contract -/

/-- The set of addresses covered by a `(network, prefix length)` block in a
`W`-bit family. -/
def blockCovers (W : Nat) (blk : Nat × Nat) (a : Nat) : Prop :=
  blk.1 ≤ a ∧ a < blk.1 + 2 ^ (W - blk.2)

instance (W : Nat) (blk : Nat × Nat) (a : Nat) : Decidable (blockCovers W blk a) := by
  unfold blockCovers; infer_instance

/-- Two blocks cover disjoint address sets. -/
def blocksDisjoint (W : Nat) (p q : Nat × Nat) : Prop :=
  ∀ a, blockCovers W p a → ¬ blockCovers W q a

/-! ### Helper instances and lemmas -/

instance instDecEqExcept {ε α : Type} [DecidableEq ε] [DecidableEq α] :
    DecidableEq (Except ε α) := fun x y =>
  match x, y with
  | .ok a, .ok b =>
    if h : a = b then .isTrue (by rw [h]) else .isFalse (by intro hh; cases hh; exact h rfl)
  | .error a, .error b =>
    if h : a = b then .isTrue (by rw [h]) else .isFalse (by intro hh; cases hh; exact h rfl)
  | .ok _, .error _ => .isFalse (by intro hh; cases hh)
  | .error _, .ok _ => .isFalse (by intro hh; cases hh)

/-- Splitting a string that does not contain the separator yields the whole
string as the only field. -/
theorem pySplit_eq_single {sep : Char} : ∀ {s : List Char}, sep ∉ s → pySplit sep s = [s]
  | [], _ => rfl
  | c :: rest, h => by
    have hc : ¬ c = sep := fun hcs => h (hcs ▸ List.mem_cons_self c rest)
    have hrest : sep ∉ rest := fun hm => h (List.mem_cons_of_mem c hm)
    simp only [pySplit, pySplit_eq_single hrest, if_neg hc]

/-- Partitioning a string that does not contain the separator finds nothing. -/
theorem pyPartition_not_mem {sep : Char} : ∀ {s : List Char}, sep ∉ s →
    pyPartition sep s = (s, false, [])
  | [], _ => rfl
  | c :: rest, h => by
    have hc : ¬ c = sep := fun hcs => h (hcs ▸ List.mem_cons_self c rest)
    have hrest : sep ∉ rest := fun hm => h (List.mem_cons_of_mem c hm)
    simp only [pyPartition, pyPartition_not_mem hrest, if_neg hc]

theorem countRighthandZeroBits_le (number bits : Nat) :
    countRighthandZeroBits number bits ≤ bits := by
  unfold countRighthandZeroBits
  split
  · exact Nat.le_refl _
  · exact Nat.min_le_left _ _

theorem summarizeNbits_le (first last W : Nat) : summarizeNbits first last W ≤ W :=
  Nat.le_trans (Nat.min_le_left _ _) (countRighthandZeroBits_le _ _)

/-- The greedy block never exceeds the remaining range size. -/
theorem two_pow_summarizeNbits_le (first last W : Nat) :
    2 ^ summarizeNbits first last W ≤ last - first + 1 := by
  have hsz : last - first + 1 ≠ 0 := by omega
  have h1 : summarizeNbits first last W ≤ Nat.log2 (last - first + 1) := by
    unfold summarizeNbits
    rw [pyBitLength_eq, if_neg hsz]
    exact Nat.le_trans (Nat.min_le_right _ _) (by omega)
  calc 2 ^ summarizeNbits first last W
      ≤ 2 ^ Nat.log2 (last - first + 1) := Nat.pow_le_pow_right (by decide) h1
    _ ≤ last - first + 1 := by
        rw [Nat.log2_eq_log_two]
        exact Nat.pow_log_le_self 2 hsz

/-- One unfolding of the summarization loop on a non-empty range. -/
theorem summarize_cons (first last W : Nat) (h : first ≤ last) :
    ∃ rest, summarize_address_range first last W =
      (first, W - summarizeNbits first last W) :: rest := by
  rw [summarize_address_range_eq, if_pos h]
  exact ⟨_, rfl⟩

/-- Exact coverage of the greedy decomposition: an address is covered by
some emitted block exactly when it lies in `[first, last]`. -/
theorem summarize_covers (first last W : Nat) (h : first ≤ last) (hW : last < 2 ^ W)
    (a : Nat) :
    (∃ blk ∈ summarize_address_range first last W, blockCovers W blk a) ↔
      first ≤ a ∧ a ≤ last := by
  have hbW : summarizeNbits first last W ≤ W := summarizeNbits_le first last W
  have hsize : 2 ^ summarizeNbits first last W ≤ last - first + 1 :=
    two_pow_summarizeNbits_le first last W
  have hpos : 0 < 2 ^ summarizeNbits first last W := Nat.pos_pow_of_pos _ (by decide)
  have hposW : 0 < 2 ^ W := Nat.pos_pow_of_pos _ (by decide)
  have hhead : ∀ x, blockCovers W (first, W - summarizeNbits first last W) x ↔
      first ≤ x ∧ x < first + 2 ^ summarizeNbits first last W := by
    intro x
    unfold blockCovers
    rw [Nat.sub_sub_self hbW]
  rw [summarize_address_range_eq, if_pos h]
  by_cases hbreak : first + 2 ^ summarizeNbits first last W - 1 = 2 ^ W - 1
  · rw [if_pos hbreak]
    simp only [List.mem_cons, List.not_mem_nil, or_false, exists_eq_left]
    rw [hhead a]
    omega
  · rw [if_neg hbreak]
    by_cases hrec : first + 2 ^ summarizeNbits first last W ≤ last
    · have ih := summarize_covers (first + 2 ^ summarizeNbits first last W) last W hrec hW a
      simp only [List.mem_cons, exists_eq_or_imp]
      rw [hhead a, ih]
      omega
    · have hempty : summarize_address_range (first + 2 ^ summarizeNbits first last W) last W = [] := by
        rw [summarize_address_range_eq, if_neg (by omega)]
      rw [hempty]
      simp only [List.mem_cons, List.not_mem_nil, or_false, exists_eq_left]
      rw [hhead a]
      omega
termination_by last + 1 - first

/-- Every address covered by an emitted block lies in `[first, last]`. -/
theorem summarize_mem_bound (first last W : Nat) (hW : last < 2 ^ W) {blk : Nat × Nat}
    (hm : blk ∈ summarize_address_range first last W) {a : Nat}
    (hc : blockCovers W blk a) : first ≤ a ∧ a ≤ last := by
  by_cases h : first ≤ last
  · exact (summarize_covers first last W h hW a).mp ⟨blk, hm, hc⟩
  · rw [summarize_address_range_eq, if_neg h] at hm
    exact absurd hm (List.not_mem_nil blk)

/-- The emitted blocks cover pairwise disjoint address sets. -/
theorem summarize_disjoint (first last W : Nat) (hW : last < 2 ^ W) :
    (summarize_address_range first last W).Pairwise (blocksDisjoint W) := by
  by_cases h : first ≤ last
  · have hbW : summarizeNbits first last W ≤ W := summarizeNbits_le first last W
    have hpos : 0 < 2 ^ summarizeNbits first last W := Nat.pos_pow_of_pos _ (by decide)
    rw [summarize_address_range_eq, if_pos h]
    by_cases hbreak : first + 2 ^ summarizeNbits first last W - 1 = 2 ^ W - 1
    · rw [if_pos hbreak]
      exact List.pairwise_singleton _ _
    · rw [if_neg hbreak]
      refine List.Pairwise.cons ?_ (summarize_disjoint _ last W hW)
      intro q hq a hcHead hcQ
      have hup : a < first + 2 ^ summarizeNbits first last W := by
        have := hcHead.2
        rwa [Nat.sub_sub_self hbW] at this
      have hlow := (summarize_mem_bound _ last W hW hq hcQ).1
      omega
  · rw [summarize_address_range_eq, if_neg h]
    exact List.Pairwise.nil
termination_by last + 1 - first

/-! ### Order properties of the sort key comparison -/

theorem lexLe_refl : ∀ s : List Char, lexLe s s = true
  | [] => rfl
  | a :: s => by
    simp only [lexLe, Nat.lt_irrefl, if_false]
    exact lexLe_refl s

theorem lexLe_total : ∀ s t : List Char, lexLe s t = true ∨ lexLe t s = true
  | [], _ => Or.inl rfl
  | _ :: _, [] => Or.inr rfl
  | a :: s, b :: t => by
    simp only [lexLe]
    rcases Nat.lt_trichotomy a.toNat b.toNat with h | h | h
    · left; rw [if_pos h]
    · rw [if_neg (by omega), if_neg (by omega), if_neg (by omega), if_neg (by omega)]
      exact lexLe_total s t
    · right; rw [if_pos h]

theorem lexLe_trans : ∀ s t u : List Char,
    lexLe s t = true → lexLe t u = true → lexLe s u = true
  | [], _, _, _, _ => rfl
  | a :: s, [], u, hst, _ => by simp [lexLe] at hst
  | a :: s, b :: t, [], _, htu => by simp [lexLe] at htu
  | a :: s, b :: t, c :: u, hst, htu => by
    simp only [lexLe] at hst htu ⊢
    rcases Nat.lt_trichotomy a.toNat c.toNat with h | h | h
    · rw [if_pos h]
    · rw [if_neg (by omega), if_neg (by omega)]
      -- a and c have equal code points: both comparisons must step through b.
      rcases Nat.lt_trichotomy a.toNat b.toNat with hab | hab | hab
      · rcases Nat.lt_trichotomy b.toNat c.toNat with hbc | hbc | hbc
        · omega
        · omega
        · rw [if_neg (by omega), if_pos (by omega)] at htu
          exact absurd htu (by simp)
      · rw [if_neg (by omega), if_neg (by omega)] at hst
        rw [if_neg (by omega), if_neg (by omega)] at htu
        exact lexLe_trans s t u hst htu
      · rw [if_neg (by omega), if_pos (by omega)] at hst
        exact absurd hst (by simp)
    · -- c's code point is smaller than a's: impossible given the hypotheses.
      exfalso
      rcases Nat.lt_trichotomy a.toNat b.toNat with hab | hab | hab
      · rcases Nat.lt_trichotomy b.toNat c.toNat with hbc | hbc | hbc
        · omega
        · omega
        · rw [if_neg (by omega), if_pos (by omega)] at htu
          exact absurd htu (by simp)
      · rw [if_neg (by omega), if_pos (by omega)] at htu
        exact absurd htu (by simp)
      · rw [if_neg (by omega), if_pos (by omega)] at hst
        exact absurd hst (by simp)

theorem keyLe_refl : ∀ k : SortKey, keyLe k k = true
  | .v4 n => by simp [keyLe]
  | .v6 n => by simp [keyLe]
  | .bad s => lexLe_refl s

theorem keyLe_total : ∀ k l : SortKey, keyLe k l = true ∨ keyLe l k = true
  | .v4 m, .v4 n => by simp [keyLe]; omega
  | .v4 _, .v6 _ => Or.inl rfl
  | .v4 _, .bad _ => Or.inl rfl
  | .v6 _, .v4 _ => Or.inr rfl
  | .v6 m, .v6 n => by simp [keyLe]; omega
  | .v6 _, .bad _ => Or.inl rfl
  | .bad _, .v4 _ => Or.inr rfl
  | .bad _, .v6 _ => Or.inr rfl
  | .bad s, .bad t => lexLe_total s t

theorem keyLe_trans : ∀ k l m : SortKey,
    keyLe k l = true → keyLe l m = true → keyLe k m = true
  | .v4 a, .v4 b, .v4 c, h1, h2 => by simp [keyLe] at *; omega
  | .v4 _, .v4 _, .v6 _, _, _ => rfl
  | .v4 _, .v4 _, .bad _, _, _ => rfl
  | .v4 _, .v6 _, .v4 _, _, h2 => by simp [keyLe] at h2
  | .v4 _, .v6 _, .v6 _, _, _ => rfl
  | .v4 _, .v6 _, .bad _, _, _ => rfl
  | .v4 _, .bad _, .v4 _, _, h2 => by simp [keyLe] at h2
  | .v4 _, .bad _, .v6 _, _, h2 => by simp [keyLe] at h2
  | .v4 _, .bad _, .bad _, _, _ => rfl
  | .v6 _, .v4 _, _, h1, _ => by simp [keyLe] at h1
  | .v6 a, .v6 b, .v6 c, h1, h2 => by simp [keyLe] at *; omega
  | .v6 _, .v6 _, .v4 _, _, h2 => by simp [keyLe] at h2
  | .v6 _, .v6 _, .bad _, _, _ => rfl
  | .v6 _, .bad _, .v4 _, _, h2 => by simp [keyLe] at h2
  | .v6 _, .bad _, .v6 _, _, h2 => by simp [keyLe] at h2
  | .v6 _, .bad _, .bad _, _, _ => rfl
  | .bad _, .v4 _, _, h1, _ => by simp [keyLe] at h1
  | .bad _, .v6 _, _, h1, _ => by simp [keyLe] at h1
  | .bad _, .bad _, .v4 _, _, h2 => by simp [keyLe] at h2
  | .bad _, .bad _, .v6 _, _, h2 => by simp [keyLe] at h2
  | .bad s, .bad t, .bad u, h1, h2 => lexLe_trans s t u h1 h2

/-- Family tag of a sort key: the first component of the Python tuple. -/
def famTag : SortKey → Nat
  | .v4 _ => 0
  | .v6 _ => 1
  | .bad _ => 2

theorem keyLe_famTag_mono : ∀ {k l : SortKey}, keyLe k l = true → famTag k ≤ famTag l
  | .v4 _, .v4 _, _ => Nat.le_refl 0
  | .v4 _, .v6 _, _ => by simp [famTag]
  | .v4 _, .bad _, _ => by simp [famTag]
  | .v6 _, .v4 _, h => by simp [keyLe] at h
  | .v6 _, .v6 _, _ => Nat.le_refl 1
  | .v6 _, .bad _, _ => by simp [famTag]
  | .bad _, .v4 _, h => by simp [keyLe] at h
  | .bad _, .v6 _, h => by simp [keyLe] at h
  | .bad _, .bad _, _ => Nat.le_refl 2

/-! ### Helper lemmas about `ip_network` on bare address strings -/

/-- A string accepted by `IPv4Address` is accepted by `ip_network` as the
single-address `/32` network. -/
theorem ip_network_of_v4addr {s : List Char} {n : Nat}
    (hp : IPv4Address_ofPyStr s = .ok n) :
    ip_network s false = .ok ⟨true, n, 32, n⟩ := by
  unfold IPv4Address_ofPyStr at hp
  by_cases hs : '/' ∈ s
  · rw [if_pos hs] at hp; cases hp
  · rw [if_neg hs] at hp
    have h4 : parseNetwork s false 32 true IPv4_int_from_string = .ok ⟨true, n, 32, n⟩ := by
      unfold parseNetwork
      rw [pySplit_eq_single hs]
      simp [hp, Bind.bind, Except.bind]
    unfold ip_network
    rw [h4]

/-- A string accepted by `IPv6Address` with no `%` scope suffix is accepted
by `ip_network` (as a network of some family). -/
theorem ip_network_isOk_of_v6addr {s : List Char} {n : Nat}
    (hp : IPv6Address_ofPyStr s = .ok n) (hsc : '%' ∉ s) :
    (ip_network s false).isOk = true := by
  unfold IPv6Address_ofPyStr at hp
  by_cases hs : '/' ∈ s
  · rw [if_pos hs] at hp; cases hp
  · rw [if_neg hs, pyPartition_not_mem hsc] at hp
    simp at hp
    unfold ip_network
    cases h4 : parseNetwork s false 32 true IPv4_int_from_string with
    | ok v => rfl
    | error e =>
      have h6 : parseNetwork s false 128 false IPv6_int_from_string = .ok ⟨false, n, 128, n⟩ := by
        unfold parseNetwork
        rw [pySplit_eq_single hs]
        simp [hp, Bind.bind, Except.bind]
      rw [h6]
      rfl

/-! ### Evaluation lemmas for `calculate_ip_range` -/

/-- Successful IPv4 path: parse, in-range end address, summarize, and keep
only the first block of the decomposition. -/
theorem calculate_ip_range_ipv4_ok {s : List Char} {c : Int} {n : Nat}
    (hp : IPv4Address_ofPyStr s = .ok n) (hc : 1 ≤ c)
    (hlt : (n : Int) + c - 1 < 2 ^ 32) :
    calculate_ip_range s c (pystr "ipv4") =
      ⟨renderAddr4 n, renderAddr4 (n + c.toNat - 1),
        renderNet4 n (32 - summarizeNbits n (n + c.toNat - 1) 32)⟩ := by
  have hofInt : IPv4Address_ofInt ((n : Int) + c - 1) = .ok (n + c.toNat - 1) := by
    unfold IPv4Address_ofInt
    rw [if_neg (by omega), if_neg (by omega)]
    congr 1
    omega
  have hle : n ≤ n + c.toNat - 1 := by omega
  obtain ⟨rest, hsum⟩ := summarize_cons n (n + c.toNat - 1) 32 hle
  have hchk : summarize_checked n (n + c.toNat - 1) 32 =
      .ok (summarize_address_range n (n + c.toNat - 1) 32) := by
    unfold summarize_checked
    rw [if_neg (by omega)]
  unfold calculate_ip_range calc_try
  simp [hp, hofInt, hchk, hsum, Bind.bind, Except.bind]
  rfl

/-- Successful IPv6 path, symmetric to the IPv4 one. -/
theorem calculate_ip_range_ipv6_ok {s : List Char} {c : Int} {n : Nat}
    (hp : IPv6Address_ofPyStr s = .ok n) (hc : 1 ≤ c)
    (hlt : (n : Int) + c - 1 < 2 ^ 128) :
    calculate_ip_range s c (pystr "ipv6") =
      ⟨renderAddr6 n, renderAddr6 (n + c.toNat - 1),
        renderNet6 n (128 - summarizeNbits n (n + c.toNat - 1) 128)⟩ := by
  have hofInt : IPv6Address_ofInt ((n : Int) + c - 1) = .ok (n + c.toNat - 1) := by
    unfold IPv6Address_ofInt
    rw [if_neg (by omega), if_neg (by omega)]
    congr 1
    omega
  have hle : n ≤ n + c.toNat - 1 := by omega
  obtain ⟨rest, hsum⟩ := summarize_cons n (n + c.toNat - 1) 128 hle
  have hchk : summarize_checked n (n + c.toNat - 1) 128 =
      .ok (summarize_address_range n (n + c.toNat - 1) 128) := by
    unfold summarize_checked
    rw [if_neg (by omega)]
  unfold calculate_ip_range calc_try
  have hne : ¬ (pystr "ipv6" = pystr "ipv4") := by decide
  rw [if_neg hne]
  simp [hp, hofInt, hchk, hsum, Bind.bind, Except.bind]
  rfl

/-- Any exception inside the `try` body produces the fallback dict. -/
theorem calculate_eq_fallback {s : List Char} {c : Int} {t : List Char}
    (h : ∃ e, calc_try s c t = .error e) :
    calculate_ip_range s c t = ⟨s, s, s⟩ := by
  obtain ⟨e, he⟩ := h
  unfold calculate_ip_range
  rw [he]

/-- IPv4 parse failure hits the `except` handler. -/
theorem calculate_ip_range_ipv4_parse_error {s : List Char} {c : Int} {e : PyExc}
    (hp : IPv4Address_ofPyStr s = .error e) :
    calculate_ip_range s c (pystr "ipv4") = ⟨s, s, s⟩ := by
  apply calculate_eq_fallback
  refine ⟨e, ?_⟩
  unfold calc_try
  simp [hp, Bind.bind, Except.bind]

/-- IPv6 parse failure hits the `except` handler. -/
theorem calculate_ip_range_ipv6_parse_error {s : List Char} {c : Int} {e : PyExc}
    (hp : IPv6Address_ofPyStr s = .error e) :
    calculate_ip_range s c (pystr "ipv6") = ⟨s, s, s⟩ := by
  apply calculate_eq_fallback
  refine ⟨e, ?_⟩
  unfold calc_try
  have hne : ¬ (pystr "ipv6" = pystr "ipv4") := by decide
  rw [if_neg hne]
  simp [hp, Bind.bind, Except.bind]

/-- A non-positive count or an end address beyond the IPv4 maximum hits the
`except` handler (via `IPv4Address(int)` or `summarize_address_range`). -/
theorem calculate_ip_range_ipv4_overflow {s : List Char} {c : Int} {n : Nat}
    (hp : IPv4Address_ofPyStr s = .ok n)
    (hbad : c ≤ 0 ∨ 2 ^ 32 ≤ (n : Int) + c - 1) :
    calculate_ip_range s c (pystr "ipv4") = ⟨s, s, s⟩ := by
  apply calculate_eq_fallback
  by_cases hneg : (n : Int) + c - 1 < 0
  · refine ⟨.addressValueError, ?_⟩
    unfold calc_try
    have hofInt : IPv4Address_ofInt ((n : Int) + c - 1) = .error .addressValueError := by
      unfold IPv4Address_ofInt
      rw [if_pos hneg]
    simp [hp, hofInt, Bind.bind, Except.bind]
  · by_cases hhigh : 2 ^ 32 ≤ (n : Int) + c - 1
    · refine ⟨.addressValueError, ?_⟩
      unfold calc_try
      have hofInt : IPv4Address_ofInt ((n : Int) + c - 1) = .error .addressValueError := by
        unfold IPv4Address_ofInt
        rw [if_neg hneg, if_pos (by omega)]
      simp [hp, hofInt, Bind.bind, Except.bind]
    · refine ⟨.valueError, ?_⟩
      unfold calc_try
      have hofInt : IPv4Address_ofInt ((n : Int) + c - 1) = .ok ((n : Int) + c - 1).toNat := by
        unfold IPv4Address_ofInt
        rw [if_neg hneg, if_neg (by omega)]
      have hchk : summarize_checked n (((n : Int) + c).toNat - 1) 32 = .error .valueError := by
        unfold summarize_checked
        rw [if_pos (by omega)]
      simp [hp, hofInt, hchk, Bind.bind, Except.bind]

/-- Symmetric overflow lemma for the IPv6 branch. -/
theorem calculate_ip_range_ipv6_overflow {s : List Char} {c : Int} {n : Nat}
    (hp : IPv6Address_ofPyStr s = .ok n)
    (hbad : c ≤ 0 ∨ 2 ^ 128 ≤ (n : Int) + c - 1) :
    calculate_ip_range s c (pystr "ipv6") = ⟨s, s, s⟩ := by
  apply calculate_eq_fallback
  have hne : ¬ (pystr "ipv6" = pystr "ipv4") := by decide
  by_cases hneg : (n : Int) + c - 1 < 0
  · refine ⟨.addressValueError, ?_⟩
    unfold calc_try
    rw [if_neg hne]
    have hofInt : IPv6Address_ofInt ((n : Int) + c - 1) = .error .addressValueError := by
      unfold IPv6Address_ofInt
      rw [if_pos hneg]
    simp [hp, hofInt, Bind.bind, Except.bind]
  · by_cases hhigh : 2 ^ 128 ≤ (n : Int) + c - 1
    · refine ⟨.addressValueError, ?_⟩
      unfold calc_try
      rw [if_neg hne]
      have hofInt : IPv6Address_ofInt ((n : Int) + c - 1) = .error .addressValueError := by
        unfold IPv6Address_ofInt
        rw [if_neg hneg, if_pos (by omega)]
      simp [hp, hofInt, Bind.bind, Except.bind]
    · refine ⟨.valueError, ?_⟩
      unfold calc_try
      rw [if_neg hne]
      have hofInt : IPv6Address_ofInt ((n : Int) + c - 1) = .ok ((n : Int) + c - 1).toNat := by
        unfold IPv6Address_ofInt
        rw [if_neg hneg, if_neg (by omega)]
      have hchk : summarize_checked n (((n : Int) + c).toNat - 1) 128 = .error .valueError := by
        unfold summarize_checked
        rw [if_pos (by omega)]
      simp [hp, hofInt, hchk, Bind.bind, Except.bind]

/-- Any other `ip_type` takes the bare `else` branch of the `try` body. -/
theorem calculate_ip_range_other {s : List Char} {c : Int} {t : List Char}
    (h4 : t ≠ pystr "ipv4") (h6 : t ≠ pystr "ipv6") :
    calculate_ip_range s c t = ⟨s, s, s⟩ := by
  unfold calculate_ip_range calc_try
  rw [if_neg h4, if_neg h6]
  rfl

/-- Coverage facts about the greedy decomposition of `[n, n+cnt-1]` and its
first block, shared by the per-family branches of the summarizer claims. -/
theorem coverage_first_block (n cnt W : Nat) (hc : 1 ≤ cnt)
    (hlt : n + cnt - 1 < 2 ^ W) :
    (∀ a, (∃ blk ∈ summarize_address_range n (n + cnt - 1) W, blockCovers W blk a) ↔
        n ≤ a ∧ a ≤ n + cnt - 1) ∧
    (summarize_address_range n (n + cnt - 1) W).Pairwise (blocksDisjoint W) ∧
    2 ^ summarizeNbits n (n + cnt - 1) W ≤ cnt ∧
    (∀ a, blockCovers W (n, W - summarizeNbits n (n + cnt - 1) W) a ↔
        n ≤ a ∧ a < n + 2 ^ summarizeNbits n (n + cnt - 1) W) := by
  have h : n ≤ n + cnt - 1 := by omega
  refine ⟨fun a => summarize_covers n _ W h hlt a, summarize_disjoint n _ W hlt,
    ?_, fun a => ?_⟩
  · have := two_pow_summarizeNbits_le n (n + cnt - 1) W
    omega
  · unfold blockCovers
    rw [Nat.sub_sub_self (summarizeNbits_le n (n + cnt - 1) W)]

/-- C1 (amended). For every valid `(start, count, family)` input — `start`
parses in the family and `start + count - 1` fits the family's space —
the full greedy decomposition computed by `summarize_address_range`
covers exactly `{start, …, start+count-1}` with pairwise disjoint
blocks, but `calculate_ip_range` keeps only the FIRST block of that
decomposition as its `cidr`; the address set covered by the returned
block is `{start, …, start+2^b-1}` with
`b = min(trailing zero bits of start, ⌊log₂ count⌋)`, a subset of the
requested range that falls short of it whenever `2^b < count`. -/
theorem calculate_ip_range_first_block_only (s : List Char) (c : Int) (n : Nat)
    (hc : 1 ≤ c) :
    (IPv4Address_ofPyStr s = .ok n → (n : Int) + c - 1 < 2 ^ 32 →
      (∀ a, (∃ blk ∈ summarize_address_range n (n + c.toNat - 1) 32,
          blockCovers 32 blk a) ↔ n ≤ a ∧ a ≤ n + c.toNat - 1) ∧
      (summarize_address_range n (n + c.toNat - 1) 32).Pairwise (blocksDisjoint 32) ∧
      2 ^ summarizeNbits n (n + c.toNat - 1) 32 ≤ c.toNat ∧
      (∀ a, blockCovers 32 (n, 32 - summarizeNbits n (n + c.toNat - 1) 32) a ↔
          n ≤ a ∧ a < n + 2 ^ summarizeNbits n (n + c.toNat - 1) 32) ∧
      (calculate_ip_range s c (pystr "ipv4")).cidr =
        renderNet4 n (32 - summarizeNbits n (n + c.toNat - 1) 32)) ∧
    (IPv6Address_ofPyStr s = .ok n → (n : Int) + c - 1 < 2 ^ 128 →
      (∀ a, (∃ blk ∈ summarize_address_range n (n + c.toNat - 1) 128,
          blockCovers 128 blk a) ↔ n ≤ a ∧ a ≤ n + c.toNat - 1) ∧
      (summarize_address_range n (n + c.toNat - 1) 128).Pairwise (blocksDisjoint 128) ∧
      2 ^ summarizeNbits n (n + c.toNat - 1) 128 ≤ c.toNat ∧
      (∀ a, blockCovers 128 (n, 128 - summarizeNbits n (n + c.toNat - 1) 128) a ↔
          n ≤ a ∧ a < n + 2 ^ summarizeNbits n (n + c.toNat - 1) 128) ∧
      (calculate_ip_range s c (pystr "ipv6")).cidr =
        renderNet6 n (128 - summarizeNbits n (n + c.toNat - 1) 128)) := by
  constructor
  · intro hp hlt
    have hcnt : 1 ≤ c.toNat := by omega
    have hlt2 : n + c.toNat - 1 < 2 ^ 32 := by omega
    obtain ⟨h1, h2, h3, h4⟩ := coverage_first_block n c.toNat 32 hcnt hlt2
    refine ⟨h1, h2, h3, h4, ?_⟩
    rw [calculate_ip_range_ipv4_ok hp hc hlt]
  · intro hp hlt
    have hcnt : 1 ≤ c.toNat := by omega
    have hlt2 : n + c.toNat - 1 < 2 ^ 128 := by omega
    obtain ⟨h1, h2, h3, h4⟩ := coverage_first_block n c.toNat 128 hcnt hlt2
    refine ⟨h1, h2, h3, h4, ?_⟩
    rw [calculate_ip_range_ipv6_ok hp hc hlt]

/-- C1 (counterexample). On `start = 0.0.0.1`, `count = 2`, family IPv4, a
valid input whose range `{1, 2}` needs two blocks, `calculate_ip_range`
returns the single block `0.0.0.1/32`, which covers address 1 but not
address 2 — so the set of addresses covered by the returned CIDR blocks
is a strict subset of `{start, …, start+count-1}`. -/
theorem calculate_ip_range_coverage_gap :
    calculate_ip_range (pystr "0.0.0.1") 2 (pystr "ipv4") =
      ⟨pystr "0.0.0.1", pystr "0.0.0.2", pystr "0.0.0.1/32"⟩ ∧
    ip_network (pystr "0.0.0.1/32") false = .ok ⟨true, 1, 32, 1⟩ ∧
    IPv4Address_ofPyStr (pystr "0.0.0.1") = .ok 1 ∧
    blockCovers 32 (1, 32) 1 ∧ ¬ blockCovers 32 (1, 32) 2 := by
  refine ⟨by decide, by decide, by decide, by decide, by decide⟩

/-- C1 (witness). The amended theorem applied at the concrete valid input
`("0.0.0.1", 2, ipv4)`. -/
theorem calculate_ip_range_first_block_only_witness :
    (1 : Int) ≤ 2 ∧ IPv4Address_ofPyStr (pystr "0.0.0.1") = .ok 1 ∧
    ((1 : Nat) : Int) + 2 - 1 < 2 ^ 32 ∧
    (calculate_ip_range (pystr "0.0.0.1") 2 (pystr "ipv4")).cidr =
      renderNet4 1 (32 - summarizeNbits 1 (1 + (2 : Int).toNat - 1) 32) := by
  refine ⟨by decide, by decide, by decide, ?_⟩
  exact (((calculate_ip_range_first_block_only (pystr "0.0.0.1") 2 1
    (by decide)).1 (by decide) (by decide)).2.2.2.2)

/-- Input line of the C2 counterexample: a parseable IPv4 start whose count
reaches past the top of the IPv4 space. -/
def ovLine : List Char :=
  pystr "apnic|CN|ipv4|255.255.255.0|512|20110414|allocated"

/-- The entry `parse_data` produces for `ovLine`: the fallback dict leaks
the bare start string into the `end` and `cidr` fields. -/
def ovEntry : IpEntry :=
  ⟨pystr "apnic", pystr "CN", pystr "ipv4", pystr "255.255.255.0", 512,
    pystr "20110414", pystr "allocated",
    some (pystr "255.255.255.0"), some (pystr "255.255.255.0")⟩

/-- C2 (counterexample). On the line
`apnic|CN|ipv4|255.255.255.0|512|20110414|allocated`, whose range tops
out past `255.255.255.255`, `parse_data` does not drop the record: the
summarizer substitutes the fallback dict, validation passes (the bare
start string re-parses as a `/32` network), the record is appended to
the IPv4 results, and the skipped counter stays at zero. -/
theorem parse_data_overflow_not_skipped :
    parse_data ovLine = .ok ⟨[ovEntry], [], [], 1, 0⟩ ∧
    validate_cidr (pystr "255.255.255.0") = true := by
  refine ⟨by decide, by decide⟩

/-- C2 (amended). When `start` parses in its family but
`start + count - 1` exceeds the family maximum, `calculate_ip_range`
catches the overflow and returns the substitute fallback dict
`{start: start_ip, end: start_ip, cidr: start_ip}`; the resulting
record then passes `validate_ip_data` (the bare address string
re-parses as a single-address network), so the record is kept, not
dropped as skipped. -/
theorem calculate_ip_range_overflow_substitute (s : List Char) (c : Int) (n : Nat)
    (hc : 1 ≤ c) :
    (IPv4Address_ofPyStr s = .ok n → 2 ^ 32 ≤ (n : Int) + c - 1 →
      calculate_ip_range s c (pystr "ipv4") = ⟨s, s, s⟩ ∧
      validate_ip_data ⟨[], [], pystr "ipv4", s, c, [], [], some s, some s⟩ = true) ∧
    (IPv6Address_ofPyStr s = .ok n → '%' ∉ s → 2 ^ 128 ≤ (n : Int) + c - 1 →
      calculate_ip_range s c (pystr "ipv6") = ⟨s, s, s⟩ ∧
      validate_ip_data ⟨[], [], pystr "ipv6", s, c, [], [], some s, some s⟩ = true) := by
  constructor
  · intro hp hov
    refine ⟨calculate_ip_range_ipv4_overflow hp (Or.inr hov), ?_⟩
    have hok : (ip_network s false).isOk = true := by
      rw [ip_network_of_v4addr hp]
      rfl
    simp [validate_ip_data, hp, hok, show ¬ c ≤ 0 from by omega]
  · intro hp hsc hov
    refine ⟨calculate_ip_range_ipv6_overflow hp (Or.inr hov), ?_⟩
    have hok : (ip_network s false).isOk = true := ip_network_isOk_of_v6addr hp hsc
    simp [validate_ip_data, hp, hok, show ¬ c ≤ 0 from by omega,
      show ¬ (pystr "ipv6" = pystr "ipv4") from by decide]

/-- C2 (witness). The amended theorem applied at the concrete input of the
counterexample line. -/
theorem calculate_ip_range_overflow_substitute_witness :
    IPv4Address_ofPyStr (pystr "255.255.255.0") = .ok 4294967040 ∧
    (2 : Int) ^ 32 ≤ ((4294967040 : Nat) : Int) + 512 - 1 ∧
    calculate_ip_range (pystr "255.255.255.0") 512 (pystr "ipv4") =
      ⟨pystr "255.255.255.0", pystr "255.255.255.0", pystr "255.255.255.0"⟩ ∧
    validate_ip_data ⟨[], [], pystr "ipv4", pystr "255.255.255.0", 512, [], [],
      some (pystr "255.255.255.0"), some (pystr "255.255.255.0")⟩ = true := by
  have h := (calculate_ip_range_overflow_substitute (pystr "255.255.255.0") 512
    4294967040 (by decide)).1 (by decide) (by decide)
  exact ⟨by decide, by decide, h.1, h.2⟩

/-- Entry of the C3 counterexample: its CIDR block `1.0.1.1/24` has host
bits set beyond the 24-bit prefix. -/
def hostBitsEntry : IpEntry :=
  ⟨[], [], pystr "ipv4", pystr "1.0.1.0", 256, [], [], none,
    some (pystr "1.0.1.1/24")⟩

/-- C3 (counterexample). A record whose block `1.0.1.1/24` has host bits
set beyond its prefix length (its address value `16777473` is not a
multiple of `2^8`) passes `validate_ip_data` and `validate_cidr`:
`ip_network(..., strict=False)` masks the host bits (yielding network
`16777216`) instead of failing, so the record is not dropped. -/
theorem validate_accepts_host_bits :
    validate_ip_data hostBitsEntry = true ∧
    validate_cidr (pystr "1.0.1.1/24") = true ∧
    ip_network (pystr "1.0.1.1/24") false = .ok ⟨true, 16777473, 24, 16777472⟩ ∧
    16777473 % 2 ^ (32 - 24) ≠ 0 := by
  refine ⟨by decide, by decide, by decide, by decide⟩

/-- C3 (amended). `validate_ip_data` passes a record exactly when (for ip
families) the start string parses under the family, the count is
positive, and any present CIDR string parses as a network under
`strict=False` — i.e. blocks need only be syntactically parseable;
canonical form (zero host bits) is NOT required, and a block with host
bits set does not cause the record to be dropped. -/
theorem validate_ip_data_characterization (e : IpEntry) :
    validate_ip_data e = true ↔
      ((e.type_ = pystr "ipv4" ∨ e.type_ = pystr "ipv6") →
        ((if e.type_ = pystr "ipv4" then IPv4Address_ofPyStr e.start
          else IPv6Address_ofPyStr e.start).isOk = true ∧
         0 < e.count ∧
         (∀ cd, e.cidr = some cd → (ip_network cd false).isOk = true))) := by
  unfold validate_ip_data
  by_cases ht : e.type_ = pystr "ipv4" ∨ e.type_ = pystr "ipv6"
  · rw [if_pos ht]
    cases hp : (if e.type_ = pystr "ipv4" then IPv4Address_ofPyStr e.start
        else IPv6Address_ofPyStr e.start) with
    | error err =>
      constructor
      · intro h
        exact Bool.noConfusion h
      · intro h
        have hfalse : false = true := (h ht).1
        exact Bool.noConfusion hfalse
    | ok v =>
      by_cases hcnt : e.count ≤ 0
      · rw [if_pos hcnt]
        constructor
        · intro h
          exact Bool.noConfusion h
        · intro h
          have := (h ht).2.1
          omega
      · rw [if_neg hcnt]
        cases hcd : e.cidr with
        | none =>
          constructor
          · intro _ _
            refine ⟨rfl, by omega, ?_⟩
            intro cd hcd2
            cases hcd2
          · intro _
            rfl
        | some cd0 =>
          constructor
          · intro h _
            refine ⟨rfl, by omega, ?_⟩
            intro cd hcd2
            cases hcd2
            exact h
          · intro h
            exact (h ht).2.2 cd0 rfl
  · rw [if_neg ht]
    constructor
    · intro _ hcontra
      exact absurd hcontra ht
    · intro _; rfl

/-- C3 (witness). The amended characterization applied to a concrete
non-canonical record that the validator accepts. -/
theorem validate_ip_data_characterization_witness :
    validate_ip_data ⟨[], [], pystr "ipv4", pystr "10.0.0.0", 8, [], [], none,
      some (pystr "10.0.0.7/8")⟩ = true := by
  refine (validate_ip_data_characterization _).mpr ?_
  intro _
  refine ⟨by decide, by decide, ?_⟩
  intro cd hcd
  cases hcd
  decide

/-- On an all-digit string, the guarded `int()` call succeeds with the
decimal value. -/
theorem pyInt_of_isDigit {s : List Char} (hd : pyIsDigit s = true) :
    pyInt s = .ok (digitsToNat s) := by
  simp only [pyIsDigit, decide_eq_true_eq] at hd
  unfold pyInt
  rw [if_pos hd]

/-- The count conversion of `parse_line` never raises: it yields the decimal
value under the `isdigit` guard and `0` otherwise. -/
theorem count_conv_eq (s : List Char) :
    (if pyIsDigit s then pyInt s else Except.ok 0) =
      Except.ok (if pyIsDigit s then (digitsToNat s : Int) else 0) := by
  by_cases hd : pyIsDigit s = true
  · rw [if_pos hd, if_pos hd, pyInt_of_isDigit hd]
  · rw [if_neg hd, if_neg hd]

/-- C4. `parse_line` rejects a line exactly when it starts with `#` or is
blank, splits into fewer than seven pipe-separated fields, has a third
field other than `ipv4`/`ipv6`/`asn`, or has a fifth field that is not
an (ASCII) digit string or whose value is zero; otherwise it returns
the record carrying the first seven fields with the count as a positive
integer. -/
theorem parse_line_characterization (line : List Char) :
    (parse_line line = .ok none ↔
      (line.headD ' ' = '#' ∨ line.all isPySpace = true ∨
        (pySplit '|' line).length < 7 ∨
        ¬ ((pySplit '|' line).getD 2 [] = pystr "ipv4" ∨
           (pySplit '|' line).getD 2 [] = pystr "ipv6" ∨
           (pySplit '|' line).getD 2 [] = pystr "asn") ∨
        pyIsDigit ((pySplit '|' line).getD 4 []) = false ∨
        digitsToNat ((pySplit '|' line).getD 4 []) = 0)) ∧
    (parse_line line ≠ .ok none →
      parse_line line = .ok (some ⟨(pySplit '|' line).getD 0 [],
        (pySplit '|' line).getD 1 [], (pySplit '|' line).getD 2 [],
        (pySplit '|' line).getD 3 [],
        (digitsToNat ((pySplit '|' line).getD 4 []) : Int),
        (pySplit '|' line).getD 5 [], (pySplit '|' line).getD 6 []⟩) ∧
      0 < digitsToNat ((pySplit '|' line).getD 4 [])) := by
  unfold parse_line
  by_cases h1 : (line.headD ' ' = '#') ∨ line.all isPySpace = true
  · rw [if_pos h1]
    exact ⟨iff_of_true rfl (by tauto), fun hne => absurd rfl hne⟩
  · rw [if_neg h1]
    by_cases h2 : (pySplit '|' line).length < 7
    · rw [if_pos h2]
      exact ⟨iff_of_true rfl (by tauto), fun hne => absurd rfl hne⟩
    · rw [if_neg h2]
      by_cases h3 : ¬ ((pySplit '|' line).getD 2 [] = pystr "ipv4" ∨
          (pySplit '|' line).getD 2 [] = pystr "ipv6" ∨
          (pySplit '|' line).getD 2 [] = pystr "asn")
      · rw [if_pos h3]
        exact ⟨iff_of_true rfl (by tauto), fun hne => absurd rfl hne⟩
      · rw [if_neg h3, count_conv_eq, parse_line_tail_ok]
        by_cases hd : pyIsDigit ((pySplit '|' line).getD 4 []) = true
        · rw [if_pos hd]
          by_cases hz : digitsToNat ((pySplit '|' line).getD 4 []) = 0
          · rw [if_pos (by omega)]
            refine ⟨iff_of_true rfl (by tauto), fun hne => absurd rfl hne⟩
          · rw [if_neg (by omega)]
            constructor
            · refine iff_of_false (by simp) ?_
              intro hcontra
              rcases hcontra with h | h | h | h | h | h
              · exact h1 (Or.inl h)
              · exact h1 (Or.inr h)
              · exact h2 h
              · exact h3 h
              · rw [hd] at h; exact Bool.noConfusion h
              · exact hz h
            · intro _
              exact ⟨rfl, by omega⟩
        · rw [if_neg hd, if_pos (by omega)]
          refine ⟨iff_of_true rfl ?_, fun hne => absurd rfl hne⟩
          exact Or.inr (Or.inr (Or.inr (Or.inr (Or.inl (by simpa using hd)))))

/-- C4 (witness). The characterization applied to the sample accepted line
from the repository's own test data. -/
theorem parse_line_characterization_witness :
    parse_line (pystr "apnic|CN|ipv4|1.0.1.0|256|20110414|allocated") =
      .ok (some ⟨pystr "apnic", pystr "CN", pystr "ipv4", pystr "1.0.1.0",
        256, pystr "20110414", pystr "allocated"⟩) ∧
    (0 : Nat) < 256 := by
  have h := (parse_line_characterization
    (pystr "apnic|CN|ipv4|1.0.1.0|256|20110414|allocated")).2 (by decide)
  exact ⟨h.1, by decide⟩

/-- C7. `parse_line` is a total function of its input line: for every
string it returns a rejection or a record, and the `ValueError` a
malformed count could raise is caught inside, so no exception
propagates. -/
theorem parse_line_total (line : List Char) :
    ∃ r, parse_line line = .ok r := by
  unfold parse_line
  by_cases h1 : (line.headD ' ' = '#') ∨ line.all isPySpace = true
  · rw [if_pos h1]; exact ⟨none, rfl⟩
  · rw [if_neg h1]
    by_cases h2 : (pySplit '|' line).length < 7
    · rw [if_pos h2]; exact ⟨none, rfl⟩
    · rw [if_neg h2]
      by_cases h3 : ¬ ((pySplit '|' line).getD 2 [] = pystr "ipv4" ∨
          (pySplit '|' line).getD 2 [] = pystr "ipv6" ∨
          (pySplit '|' line).getD 2 [] = pystr "asn")
      · rw [if_pos h3]; exact ⟨none, rfl⟩
      · rw [if_neg h3, count_conv_eq, parse_line_tail_ok]
        by_cases hle : (if pyIsDigit ((pySplit '|' line).getD 4 []) then
            (digitsToNat ((pySplit '|' line).getD 4 []) : Int) else 0) ≤ 0
        · rw [if_pos hle]; exact ⟨none, rfl⟩
        · rw [if_neg hle]; exact ⟨some _, rfl⟩

/-- C5. Every list produced by `generate_cidr_list` is sorted by the
numeric sort key — the `(family tag, integer address value)` tuple of
the block's network address, not the lexical string order — and, since
the family tag is the first tuple component, blocks of different
address families are never interleaved: the family tags are monotone
along the output. -/
theorem generate_cidr_list_sorted (data : List Char → List IpEntry)
    (ip_type : List Char) (country : Option (List Char)) :
    (generate_cidr_list data ip_type country).Pairwise cidrLe ∧
    (generate_cidr_list data ip_type country).Pairwise
      (fun a b => famTag (ip_to_sort_key a) ≤ famTag (ip_to_sort_key b)) := by
  have hsorted : (generate_cidr_list data ip_type country).Pairwise cidrLe := by
    unfold generate_cidr_list pySorted
    haveI : IsTotal (List Char) cidrLe :=
      ⟨fun a b => keyLe_total (ip_to_sort_key a) (ip_to_sort_key b)⟩
    haveI : IsTrans (List Char) cidrLe :=
      ⟨fun a b c h1 h2 => keyLe_trans _ _ _ h1 h2⟩
    exact List.sorted_insertionSort cidrLe _
  exact ⟨hsorted, hsorted.imp fun h => keyLe_famTag_mono h⟩

/-- Two tied entries (same network address `1.0.0.0`, different prefix
lengths) in input order broader-last, for the C6 counterexample. -/
def tieEntryA : IpEntry :=
  ⟨[], pystr "CN", pystr "ipv4", [], 1, [], [], none, some (pystr "1.0.0.0/24")⟩

/-- Companion entry of `tieEntryA` carrying the broader `/16` block. -/
def tieEntryB : IpEntry :=
  ⟨[], pystr "CN", pystr "ipv4", [], 1, [], [], none, some (pystr "1.0.0.0/16")⟩

/-- A data set holding the two tied entries under the `ipv4` key. -/
def tieData : List Char → List IpEntry :=
  fun k => if k = pystr "ipv4" then [tieEntryA, tieEntryB] else []

/-- C6 (counterexample). Both `1.0.0.0/24` and `1.0.0.0/16` have the same
sort key (the prefix length is stripped before the key is computed),
and on input order `/24` first the aggregator keeps `/24` first: the
broader `/16` block is NOT placed first on a tie. -/
theorem generate_cidr_list_tie_keeps_input_order :
    generate_cidr_list tieData (pystr "ipv4") none =
      [pystr "1.0.0.0/24", pystr "1.0.0.0/16"] ∧
    ip_to_sort_key (pystr "1.0.0.0/24") = ip_to_sort_key (pystr "1.0.0.0/16") := by
  refine ⟨by decide, by decide⟩

/-- C6 (amended). The sort key ignores everything after the `/`, so two
blocks with an identical network address and different prefix lengths
compare equal; the sort is stable, so such tied blocks appear in the
aggregator's output in their input order — not broader-block-first. -/
theorem generate_cidr_list_tie_stable (data : List Char → List IpEntry)
    (ip_type : List Char) (country : Option (List Char)) (a b : List Char)
    (hk : ip_to_sort_key a = ip_to_sort_key b)
    (h : List.Sublist [a, b] (collectCidrs (data ip_type) country)) :
    List.Sublist [a, b] (generate_cidr_list data ip_type country) := by
  unfold generate_cidr_list pySorted
  refine List.pair_sublist_insertionSort ?_ h
  show keyLe (ip_to_sort_key a) (ip_to_sort_key b) = true
  rw [hk]
  exact keyLe_refl _

/-- C6 (witness). The amended theorem applied to the concrete tied pair. -/
theorem generate_cidr_list_tie_stable_witness :
    List.Sublist [pystr "1.0.0.0/24", pystr "1.0.0.0/16"]
      (generate_cidr_list tieData (pystr "ipv4") none) := by
  refine generate_cidr_list_tie_stable tieData (pystr "ipv4") none _ _ (by decide) ?_
  exact List.Sublist.refl _

/-- C8. The aggregator is deterministic: its output depends only on the
values of the input data set, the family key, and the country filter —
two runs over equal inputs produce identical lists in identical
order. -/
theorem generate_cidr_list_deterministic (d1 d2 : List Char → List IpEntry)
    (ip_type : List Char) (country : Option (List Char))
    (h : ∀ k, d1 k = d2 k) :
    generate_cidr_list d1 ip_type country = generate_cidr_list d2 ip_type country := by
  have hd : d1 = d2 := funext h
  rw [hd]

/-- A one-entry data set for the determinism witness. -/
def detData : List Char → List IpEntry :=
  fun _ => [⟨[], pystr "CN", pystr "ipv4", [], 1, [], [], none,
    some (pystr "1.2.3.0/24")⟩]

/-- C8 (witness). Determinism applied to a concrete data set. -/
theorem generate_cidr_list_deterministic_witness :
    generate_cidr_list detData (pystr "ipv4") none =
      generate_cidr_list detData (pystr "ipv4") none :=
  generate_cidr_list_deterministic detData detData (pystr "ipv4") none (fun _ => rfl)

/-- Filtering with the empty string behaves like no filter at all, because
the empty string is falsy in the `if country and ...` guard. -/
theorem collectCidrs_empty_country : ∀ entries : List IpEntry,
    collectCidrs entries (some []) = collectCidrs entries none
  | [] => rfl
  | e :: rest => by
    unfold collectCidrs
    simp only [List.isEmpty_nil, Bool.not_true, Bool.false_and, if_false]
    rw [collectCidrs_empty_country rest]

/-- C10. Passing the empty string as the country filter yields exactly the
list produced with no country filter at all: the empty string disables
filtering, so entries whose country field is the empty string can never
be selected on their own. -/
theorem generate_cidr_list_empty_country (data : List Char → List IpEntry)
    (ip_type : List Char) :
    generate_cidr_list data ip_type (some (pystr "")) =
      generate_cidr_list data ip_type none := by
  unfold generate_cidr_list
  rw [show pystr "" = [] from rfl, collectCidrs_empty_country]

/-- C9. `calculate_ip_range` never lets an exception escape: on an
unparsable start address, a non-positive count, or out-of-range
arithmetic past the family maximum, the `except` handler returns the
fallback dict `{start: start_ip, end: start_ip, cidr: start_ip}`, whose
`cidr` value is the bare input string with no prefix length; any
`ip_type` other than `ipv4`/`ipv6` returns the same dict via the
`else` branch. -/
theorem calculate_ip_range_total_fallback (s : List Char) (c : Int) :
    (∀ e, IPv4Address_ofPyStr s = .error e →
      calculate_ip_range s c (pystr "ipv4") = ⟨s, s, s⟩) ∧
    (∀ n, IPv4Address_ofPyStr s = .ok n → (c ≤ 0 ∨ 2 ^ 32 ≤ (n : Int) + c - 1) →
      calculate_ip_range s c (pystr "ipv4") = ⟨s, s, s⟩) ∧
    (∀ e, IPv6Address_ofPyStr s = .error e →
      calculate_ip_range s c (pystr "ipv6") = ⟨s, s, s⟩) ∧
    (∀ n, IPv6Address_ofPyStr s = .ok n → (c ≤ 0 ∨ 2 ^ 128 ≤ (n : Int) + c - 1) →
      calculate_ip_range s c (pystr "ipv6") = ⟨s, s, s⟩) ∧
    (∀ t, t ≠ pystr "ipv4" → t ≠ pystr "ipv6" →
      calculate_ip_range s c t = ⟨s, s, s⟩) :=
  ⟨fun _ he => calculate_ip_range_ipv4_parse_error he,
   fun _ hn hbad => calculate_ip_range_ipv4_overflow hn hbad,
   fun _ he => calculate_ip_range_ipv6_parse_error he,
   fun _ hn hbad => calculate_ip_range_ipv6_overflow hn hbad,
   fun _ h4 h6 => calculate_ip_range_other h4 h6⟩

/-- C9 (witness). The fallback theorem applied to the unparsable start
string `1.2.3`. -/
theorem calculate_ip_range_total_fallback_witness :
    IPv4Address_ofPyStr (pystr "1.2.3") = .error .addressValueError ∧
    calculate_ip_range (pystr "1.2.3") 5 (pystr "ipv4") =
      ⟨pystr "1.2.3", pystr "1.2.3", pystr "1.2.3"⟩ :=
  ⟨by decide,
   (calculate_ip_range_total_fallback (pystr "1.2.3") 5).1 .addressValueError (by decide)⟩
